import Mathlib

/-!
The stout `hashset` container

A shallow embedding of `3rdparty/libprocess/3rdparty/stout/include/stout/hashset.hpp`:
the class template `hashset<Elem>` (a public subclass of `boost::unordered_set<Elem>`),
its members `EMPTY`, the default constructor, `contains`, the two `exists` overloads,
and the free union operator `operator |`.

* The Boost container is not part of the header; it is modelled as the sequence of
  its elements in iteration order.
* A C++ call either executes a `return`, stops with an explicit error signal, or has
  undefined behaviour; `Outcome` records which.
* The member-pointer overload of `exists` is embedded as a function. The loop
  conditions of both overloads are also kept as expression trees, parsed by operator
  precedence, with the typing rules that decide whether an overload can be
  instantiated; the method-pointer overload cannot, so it has no function.
* The function-local static of `EMPTY()` and the local variable of `operator |` are
  modelled by explicit state passing; `operator |` is also run on a store of objects,
  with its operands given by address.
-/

set_option autoImplicit false

namespace stout

/-! ## The underlying container -/

/-- Modelled from the spec: the external collaborator `boost::unordered_set<Elem>`,
"a uniqueness-preserving, insertion-order-irrelevant container of elements, supporting
insert, membership test, iteration, and range-based bulk insert". The container is
represented by the list of its elements in iteration order. -/
structure unordered_set (Elem : Type) where
  /-- The elements, in the order in which `begin()` .. `end()` visits them. -/
  elems : List Elem
deriving DecidableEq, Repr

namespace unordered_set

variable {Elem : Type} [DecidableEq Elem]

/-- Modelled from the spec: `unordered_set::count`, the number of stored elements
that compare equal to `elem`. -/
def count (s : unordered_set Elem) (elem : Elem) : Nat :=
  s.elems.count elem

/-- Modelled from the spec: `unordered_set::size`, the number of stored elements. -/
def size (s : unordered_set Elem) : Nat :=
  s.elems.length

/-- Modelled from the spec: single-element `unordered_set::insert`. An element equal
to one already stored is not added; a new element is placed at the end of the
iteration order. -/
def insert (s : unordered_set Elem) (elem : Elem) : unordered_set Elem :=
  if s.count elem > 0 then s else ⟨s.elems ++ [elem]⟩

/-- Modelled from the spec: range `unordered_set::insert(first, last)`, which inserts
the elements of the range one after the other. -/
def insert_range (s : unordered_set Elem) : List Elem → unordered_set Elem
  | [] => s
  | elem :: rest => (s.insert elem).insert_range rest

/-- The uniqueness invariant of the container: no element is stored twice. -/
def unique (s : unordered_set Elem) : Prop :=
  s.elems.Nodup

end unordered_set

/-! ## Outcomes of a call -/

/-- The two ways in which a call of `exists` can have undefined behaviour. -/
inductive Undefined where
  /-- A member is accessed through a null pointer. -/
  | null_dereference
  /-- Control reaches the closing brace of a function returning `bool` without
  executing a `return` statement. -/
  | missing_return
deriving DecidableEq, Repr

/-- What a call does: it returns a value, it stops with an explicit
"invalid element" signal, or its behaviour is undefined. -/
inductive Outcome (α : Type) where
  | returned (value : α)
  | invalid_element
  | undefined (cause : Undefined)
deriving DecidableEq, Repr

/-! ## The loop conditions of `exists` -/

/-- The types of the expressions that occur in the loop conditions of `exists`. -/
inductive CType where
  /-- A pointer to an object of class `T`; `to_const` for `const T*`. -/
  | object_pointer (to_const : Bool)
  /-- A pointer to a member function `R (T::*)()`; `const_qualified` when the member
  function is declared `const`. -/
  | member_function_pointer (const_qualified : Bool)
  /-- A pointer to a data member `R (T::*)`. -/
  | data_member_pointer
  /-- The result of `->*` with a pointer to member function: it can only be the
  operand of a call, and only when the object is not more cv-qualified than the
  member function. -/
  | bound_member_function (callable : Bool)
  /-- A value of type `R`. -/
  | value
  /-- The type `bool`. -/
  | boolean
deriving DecidableEq, Repr

/-- The expressions of the loop conditions: the variables in scope and the three
operators used, a postfix call `callee()`, `object->*pm` and `lhs == rhs`. -/
inductive CExpr where
  /-- The local `const T* t = boost::get_pointer(elem);`. -/
  | t
  /-- The parameter `R (T::*method)()`. -/
  | method
  /-- The parameter `R (T::*member)`. -/
  | member
  /-- The parameter `R r`. -/
  | r
  | call (callee : CExpr)
  | arrow_star (object pm : CExpr)
  | equals (lhs rhs : CExpr)
deriving DecidableEq, Repr

/-- The type of an expression, `none` when the expression is ill-formed. A call needs
a callee that can be called: a pointer to member function by itself cannot, and a
bound member function only when the object's constness allows it. -/
def CExpr.type : CExpr → Option CType
  | CExpr.t => some (CType.object_pointer true)
  | CExpr.method => some (CType.member_function_pointer false)
  | CExpr.member => some CType.data_member_pointer
  | CExpr.r => some CType.value
  | CExpr.call callee =>
    match callee.type with
    | some (CType.bound_member_function true) => some CType.value
    | _ => none
  | CExpr.arrow_star object pm =>
    match object.type, pm.type with
    | some (CType.object_pointer _), some CType.data_member_pointer => some CType.value
    | some (CType.object_pointer to_const), some (CType.member_function_pointer cq) =>
      some (CType.bound_member_function (!to_const || cq))
    | _, _ => none
  | CExpr.equals lhs rhs =>
    match lhs.type, rhs.type with
    | some CType.value, some CType.value => some CType.boolean
    | _, _ => none

/-- The condition `t->*method() == r` of the method-pointer overload (line 61). The
postfix call binds tighter than `->*`, and `->*` tighter than `==`, so it is
`(t->*(method())) == r`. -/
def method_condition : CExpr :=
  CExpr.equals (CExpr.arrow_star CExpr.t (CExpr.call CExpr.method)) CExpr.r

/-- The condition `t->*member == r` of the member-pointer overload (line 74):
`(t->*member) == r`. -/
def member_condition : CExpr :=
  CExpr.equals (CExpr.arrow_star CExpr.t CExpr.member) CExpr.r

/-- The call that the comment above the method-pointer overload describes,
`(t->*method)() == r`; it is not what line 61 says. -/
def method_condition_parenthesised : CExpr :=
  CExpr.equals (CExpr.call (CExpr.arrow_star CExpr.t CExpr.method)) CExpr.r

/-! ## `hashset<Elem>` -/

/-- The class `hashset<Elem> : public boost::unordered_set<Elem>`; it adds no data
members to its base class. -/
structure hashset (Elem : Type) extends unordered_set Elem
deriving DecidableEq, Repr

/-- The default constructor `hashset() {}`: the base class is default-constructed,
which gives a container without elements. -/
def hashset.hashset_ctor {Elem : Type} : hashset Elem :=
  ⟨⟨[]⟩⟩

namespace hashset

variable {Elem : Type} [DecidableEq Elem]

/-- The inherited member `count`. -/
def count (S : hashset Elem) (elem : Elem) : Nat :=
  S.tounordered_set.count elem

/-- The inherited member `size`. -/
def size (S : hashset Elem) : Nat :=
  S.tounordered_set.size

/-- The inherited single-element `insert`. -/
def insert (S : hashset Elem) (elem : Elem) : hashset Elem :=
  ⟨S.tounordered_set.insert elem⟩

/-- The inherited range `insert(first, last)`. -/
def insert_range (S : hashset Elem) (range : List Elem) : hashset Elem :=
  ⟨S.tounordered_set.insert_range range⟩

/-- The state of the function-local static `empty` of `EMPTY()`: `none` until the
first call has run the initialiser, afterwards the object the pointer refers to. -/
abbrev EMPTY_static (Elem : Type) : Type :=
  Option (hashset Elem)

/-- The member `EMPTY()`:
`static hashset<Elem>* empty = new hashset<Elem>(); return *empty;`.
The first call runs the initialiser; every call returns the object pointed to.
The second component is the state of the static after the call. -/
def EMPTY (st : EMPTY_static Elem) : hashset Elem × EMPTY_static Elem :=
  match st with
  | none => (hashset_ctor, some hashset_ctor)
  | some empty => (empty, some empty)

/-- The state of the static after `n` calls of `EMPTY()` in a fresh process. -/
def EMPTY_calls : Nat → EMPTY_static Elem
  | 0 => none
  | n + 1 => (EMPTY (EMPTY_calls n)).2

/-- The member `contains`:
`return boost::unordered_set<Elem>::count(elem) > 0;`. -/
def contains (S : hashset Elem) (elem : Elem) : Bool :=
  decide (S.tounordered_set.count elem > 0)

/-- The body of the `foreach` loop of the member-pointer overload of `exists`, run
over the elements still to be visited. `get_pointer elem` is `none` when
`boost::get_pointer(elem)` is null; `member` reads the data member of the object.
When the loop ends, control reaches the closing brace of the function. -/
def exists_member_loop {T R : Type} [DecidableEq R] (get_pointer : Elem → Option T)
    (member : T → R) (r : R) : List Elem → Outcome Bool
  | [] => Outcome.undefined Undefined.missing_return
  | elem :: rest =>
    match get_pointer elem with
    | none => Outcome.undefined Undefined.null_dereference
    | some t =>
      if member t = r then Outcome.returned true
      else exists_member_loop get_pointer member r rest

/-- The overload `bool exists(R (T::*member), R r) const`. -/
def exists_member {T R : Type} [DecidableEq R] (S : hashset Elem)
    (get_pointer : Elem → Option T) (member : T → R) (r : R) : Outcome Bool :=
  exists_member_loop get_pointer member r S.elems

end hashset

/-! ## The union operator -/

variable {Elem : Type} [DecidableEq Elem]

/-- The variables of one activation of `operator |`: the two operands, bound by
reference to const, and the local `result`. -/
structure union_frame (Elem : Type) where
  left : hashset Elem
  right : hashset Elem
  result : hashset Elem
deriving DecidableEq, Repr

/-- The statements of `operator |`, run on the operands:
`hashset<Elem> result = left;` then `result.insert(right.begin(), right.end());`.
The frame returned is the one in which `return result;` is executed. -/
def operator_or_run (left right : hashset Elem) : union_frame Elem :=
  let declared : union_frame Elem := ⟨left, right, left⟩
  { declared with result := declared.result.insert_range declared.right.elems }

/-- The union operator `operator |`: the value of `result` at `return result;`. -/
def operator_or (left right : hashset Elem) : hashset Elem :=
  (operator_or_run left right).result

/-! ## The union operator on objects in storage -/

/-- The storage that holds the `hashset` objects of a program: the object at address
`a` is the entry number `a`. Operands passed by reference are addresses into it. -/
structure Store (Elem : Type) where
  objects : List (hashset Elem)
deriving DecidableEq, Repr

/-- The object stored at an address, `none` when nothing is stored there. -/
def Store.read (σ : Store Elem) (address : Nat) : Option (hashset Elem) :=
  σ.objects[address]?

/-- The storage after the object at an address has been overwritten. -/
def Store.write (σ : Store Elem) (address : Nat) (value : hashset Elem) : Store Elem :=
  ⟨σ.objects.set address value⟩

/-- The storage after a new object has been created, and the address of that object. -/
def Store.allocate (σ : Store Elem) (value : hashset Elem) : Store Elem × Nat :=
  (⟨σ.objects ++ [value]⟩, σ.objects.length)

/-- The statement `result.insert(right.begin(), right.end());` on storage: the
iterator stands at `position` in the object at address `right`; while it has not
reached `end()`, the element it points to is inserted into the object at address
`result` and the iterator advances. `fuel` bounds the number of insertions; the
result is `none` when it does not suffice or an address holds no object. -/
def insert_range_at (result right : Nat) : Nat → Nat → Store Elem → Option (Store Elem)
  | fuel, position, σ =>
    match σ.read right, σ.read result with
    | some source, some target =>
      match source.elems[position]? with
      | none => some σ
      | some elem =>
        match fuel with
        | 0 => none
        | fuel + 1 =>
          insert_range_at result right fuel (position + 1)
            (σ.write result (target.insert elem))
    | _, _ => none

/-- The union operator `operator |` on storage, with the operands given by reference:
`hashset<Elem> result = left;` creates a new object holding a copy of the left
operand, `result.insert(right.begin(), right.end());` inserts the elements of the
right operand into it, and `return result;` hands it back. The value is the storage
after the call and the address of `result`. -/
def operator_or_at (σ : Store Elem) (left right : Nat) : Option (Store Elem × Nat) :=
  match σ.read left, σ.read right with
  | some l, some r =>
    let declared := σ.allocate l
    match insert_range_at declared.2 right r.size 0 declared.1 with
    | some σ' => some (σ', declared.2)
    | none => none
  | _, _ => none

/-! ## Data for the concrete scenarios -/

/-- An object with a data member `id`. -/
structure Obj where
  id : Nat
deriving DecidableEq, Repr

/-- A memory holding three objects with ids 10, 20 and 30 at the addresses 1, 2
and 3; every other address, 0 among them, is the null pointer. -/
def sample_memory : Nat → Option Obj
  | 1 => some ⟨10⟩
  | 2 => some ⟨20⟩
  | 3 => some ⟨30⟩
  | _ => none

/-- The set of pointers to the three objects of `sample_memory`, built by inserting
them into a default-constructed set. -/
def sample_pointers : hashset Nat :=
  ((hashset.hashset_ctor.insert 1).insert 2).insert 3

/-- A set holding the null pointer and the pointer to the object with id 20; the
iteration visits the null pointer first. -/
def sample_with_null : hashset Nat :=
  (hashset.hashset_ctor.insert 0).insert 2

/-- The same two pointers as in `sample_with_null`, in the other iteration order:
the pointer to the object with id 20 is visited first, the null pointer second. -/
def sample_with_null_reordered : hashset Nat :=
  (hashset.hashset_ctor.insert 2).insert 0

/-- The set `{1, 2, 3}`. -/
def sample_A : hashset Nat :=
  ((hashset.hashset_ctor.insert 1).insert 2).insert 3

/-- The set `{3, 4}`. -/
def sample_B : hashset Nat :=
  (hashset.hashset_ctor.insert 3).insert 4

/-! ## Lemmas about the container model -/

namespace unordered_set

theorem count_pos_iff (s : unordered_set Elem) (x : Elem) :
    0 < s.count x ↔ x ∈ s.elems := by
  unfold count
  exact List.count_pos_iff

theorem mem_insert (s : unordered_set Elem) (e x : Elem) :
    x ∈ (s.insert e).elems ↔ x ∈ s.elems ∨ x = e := by
  unfold insert
  by_cases h : s.count e > 0
  · have he : e ∈ s.elems := (count_pos_iff s e).mp h
    simp only [h, if_true]
    constructor
    · intro hx; exact Or.inl hx
    · rintro (hx | hx)
      · exact hx
      · exact hx ▸ he
  · simp [h]

theorem mem_insert_range (range : List Elem) :
    ∀ (s : unordered_set Elem) (x : Elem),
      x ∈ (s.insert_range range).elems ↔ x ∈ s.elems ∨ x ∈ range := by
  induction range with
  | nil => intro s x; simp [insert_range]
  | cons e rest ih =>
    intro s x
    simp only [insert_range, ih, mem_insert, List.mem_cons]
    tauto

theorem unique_insert (s : unordered_set Elem) (e : Elem) (hs : s.unique) :
    (s.insert e).unique := by
  unfold unique at *
  unfold insert
  by_cases h : s.count e > 0
  · simpa [h] using hs
  · have he : e ∉ s.elems := fun hm => h ((count_pos_iff s e).mpr hm)
    simp only [h, if_false]
    rw [List.nodup_append]
    refine ⟨hs, List.nodup_singleton e, ?_⟩
    intro a ha hb
    rw [List.mem_singleton] at hb
    exact he (hb ▸ ha)

theorem unique_insert_range (range : List Elem) :
    ∀ (s : unordered_set Elem), s.unique → (s.insert_range range).unique := by
  induction range with
  | nil => intro s hs; simpa [insert_range] using hs
  | cons e rest ih =>
    intro s hs
    simp only [insert_range]
    exact ih _ (unique_insert s e hs)

end unordered_set

namespace hashset

theorem contains_iff_mem (S : hashset Elem) (x : Elem) :
    S.contains x = true ↔ x ∈ S.elems := by
  unfold contains
  rw [decide_eq_true_iff]
  exact unordered_set.count_pos_iff S.tounordered_set x

end hashset

namespace hashset

theorem exists_member_loop_null {E T R : Type} [DecidableEq R] (get_pointer : E → Option T)
    (member : T → R) (r : R) (e : E) (post : List E) (he : get_pointer e = none) :
    ∀ pre : List E, (∀ p ∈ pre, ∃ t, get_pointer p = some t ∧ member t ≠ r) →
      exists_member_loop get_pointer member r (pre ++ e :: post) =
        Outcome.undefined Undefined.null_dereference := by
  intro pre
  induction pre with
  | nil => intro _; simp [exists_member_loop, he]
  | cons p rest ih =>
    intro h
    obtain ⟨t, ht, hne⟩ := h p (List.mem_cons_self p rest)
    simp only [List.cons_append, exists_member_loop, ht, hne, if_false]
    exact ih (fun q hq => h q (List.mem_cons_of_mem p hq))

theorem EMPTY_calls_succ {E : Type} (n : Nat) :
    (EMPTY_calls (n + 1) : EMPTY_static E) = some hashset_ctor := by
  induction n with
  | zero => rfl
  | succ k ih =>
    show (EMPTY (EMPTY_calls (k + 1))).2 = some hashset_ctor
    rw [ih]
    rfl

theorem EMPTY_calls_cases {E : Type} (n : Nat) :
    (EMPTY_calls n : EMPTY_static E) = none ∨
      (EMPTY_calls n : EMPTY_static E) = some hashset_ctor := by
  cases n with
  | zero => exact Or.inl rfl
  | succ k => exact Or.inr (EMPTY_calls_succ k)

theorem EMPTY_fst {E : Type} (n : Nat) :
    (EMPTY (EMPTY_calls n : EMPTY_static E)).1 = hashset_ctor := by
  rcases @EMPTY_calls_cases E n with h | h <;> rw [h] <;> rfl

end hashset

theorem operator_or_elems (A B : hashset Elem) :
    (operator_or A B).elems = (A.tounordered_set.insert_range B.elems).elems := rfl

theorem mem_operator_or (A B : hashset Elem) (x : Elem) :
    x ∈ (operator_or A B).elems ↔ x ∈ A.elems ∨ x ∈ B.elems := by
  rw [operator_or_elems]
  exact unordered_set.mem_insert_range B.elems A.tounordered_set x

theorem unordered_set.insert_stored (s : unordered_set Elem) (e : Elem)
    (he : e ∈ s.elems) : s.insert e = s := by
  unfold unordered_set.insert
  rw [if_pos ((unordered_set.count_pos_iff s e).mpr he)]

theorem operator_or_unique (A B : hashset Elem) (hA : A.unique) :
    (operator_or A B).unique :=
  unordered_set.unique_insert_range B.elems A.tounordered_set hA

theorem hashset.size_eq_of_same_elems {E : Type} (S S' : hashset E) (hS : S.unique)
    (hS' : S'.unique) (h : ∀ x, x ∈ S.elems ↔ x ∈ S'.elems) : S.size = S'.size := by
  unfold hashset.size unordered_set.size
  exact ((List.perm_ext_iff_of_nodup hS hS').mpr h).length_eq

theorem hashset.exists_member_loop_match {E T R : Type} [DecidableEq R]
    (get_pointer : E → Option T) (member : T → R) (r : R) :
    ∀ l : List E, (∀ e ∈ l, get_pointer e ≠ none) →
      (∃ e ∈ l, ∃ t, get_pointer e = some t ∧ member t = r) →
      hashset.exists_member_loop get_pointer member r l = Outcome.returned true := by
  intro l
  induction l with
  | nil => intro _ h; obtain ⟨e, he, _⟩ := h; cases he
  | cons a rest ih =>
    intro hnn hm
    cases hga : get_pointer a with
    | none => exact absurd hga (hnn a (List.mem_cons_self a rest))
    | some ta =>
      simp only [hashset.exists_member_loop, hga]
      by_cases hta : member ta = r
      · rw [if_pos hta]
      · rw [if_neg hta]
        apply ih (fun e he => hnn e (List.mem_cons_of_mem a he))
        obtain ⟨e, he, t, hge, hte⟩ := hm
        rcases List.mem_cons.mp he with hea | her
        · subst hea
          rw [hga] at hge
          cases hge
          exact absurd hte hta
        · exact ⟨e, her, t, hge, hte⟩

theorem Store.read_lt {E : Type} (σ : Store E) (a : Nat) (v : hashset E)
    (h : σ.read a = some v) : a < σ.objects.length := by
  unfold Store.read at h
  by_contra hc
  rw [List.getElem?_eq_none (Nat.le_of_not_lt hc)] at h
  cases h

theorem Store.read_write_same {E : Type} (σ : Store E) (a : Nat) (v w : hashset E)
    (h : σ.read a = some v) : (σ.write a w).read a = some w := by
  have hlt := Store.read_lt σ a v h
  unfold Store.read Store.write
  simp [List.getElem?_set, hlt]

theorem Store.read_write_other {E : Type} (σ : Store E) (a b : Nat) (w : hashset E)
    (h : a ≠ b) : (σ.write b w).read a = σ.read a := by
  unfold Store.read Store.write
  simp [List.getElem?_set, Ne.symm h]

theorem Store.read_allocate_new {E : Type} (σ : Store E) (v : hashset E) :
    (σ.allocate v).1.read (σ.allocate v).2 = some v := by
  unfold Store.read Store.allocate
  simp

theorem Store.read_allocate_other {E : Type} (σ : Store E) (v : hashset E) (a : Nat)
    (h : a ≠ (σ.allocate v).2) : (σ.allocate v).1.read a = σ.read a := by
  unfold Store.read Store.allocate at *
  simp only at h ⊢
  rcases Nat.lt_or_gt_of_ne h with hlt | hgt
  · exact List.getElem?_append_left hlt
  · rw [List.getElem?_eq_none (by simp; omega), List.getElem?_eq_none (by omega)]

theorem insert_range_at_spec {E : Type} [DecidableEq E] (result right : Nat)
    (B : hashset E) (hne : result ≠ right) :
    ∀ (fuel position : Nat) (σ : Store E) (target : hashset E),
      σ.read right = some B → σ.read result = some target →
      B.elems.length ≤ position + fuel →
      ∃ σ', insert_range_at result right fuel position σ = some σ' ∧
        σ'.read result = some (target.insert_range (B.elems.drop position)) ∧
        ∀ a, a ≠ result → σ'.read a = σ.read a := by
  intro fuel
  induction fuel with
  | zero =>
    intro position σ target hB ht hlen
    have hnone : B.elems[position]? = none := List.getElem?_eq_none (by omega)
    refine ⟨σ, ?_, ?_, fun _ _ => rfl⟩
    · unfold insert_range_at
      simp [hB, ht, hnone]
    · rw [List.drop_eq_nil_of_le (by omega)]
      exact ht
  | succ k ih =>
    intro position σ target hB ht hlen
    cases hget : B.elems[position]? with
    | none =>
      refine ⟨σ, ?_, ?_, fun _ _ => rfl⟩
      · unfold insert_range_at
        simp [hB, ht, hget]
      · have hge : B.elems.length ≤ position := by
          by_contra hc
          rw [List.getElem?_eq_getElem (Nat.lt_of_not_le hc)] at hget
          cases hget
        rw [List.drop_eq_nil_of_le hge]
        exact ht
    | some e =>
      have hlt : position < B.elems.length := by
        by_contra hc
        rw [List.getElem?_eq_none (Nat.le_of_not_lt hc)] at hget
        cases hget
      have hdrop : B.elems.drop position = e :: B.elems.drop (position + 1) := by
        rw [List.drop_eq_getElem_cons hlt]
        rw [List.getElem?_eq_getElem hlt] at hget
        cases hget
        rfl
      obtain ⟨σ', hrun, hres, hother⟩ := ih (position + 1)
        (σ.write result (target.insert e)) (target.insert e)
        (by rw [Store.read_write_other σ right result _ (Ne.symm hne)]; exact hB)
        (Store.read_write_same σ result target _ ht) (by omega)
      refine ⟨σ', ?_, ?_, ?_⟩
      · rw [insert_range_at]
        simp only [hB, ht, hget]
        exact hrun
      · rw [hres, hdrop]
        rfl
      · intro a ha
        rw [hother a ha, Store.read_write_other σ a result _ ha]

/-! ## Claims -/

/-- C1: for all sets `A`, `B` and every element `x`, `(A | B).contains(x)` is true
exactly when `A.contains(x)` or `B.contains(x)` is; and for `A = {1,2,3}`,
`B = {3,4}` the union has four elements and contains exactly 1, 2, 3 and 4. -/
theorem union_contains_law :
    (∀ (E : Type) [DecidableEq E] (A B : hashset E) (x : E),
      (operator_or A B).contains x = (A.contains x || B.contains x)) ∧
    (operator_or sample_A sample_B).size = 4 ∧
    (∀ x : Nat, (operator_or sample_A sample_B).contains x = true ↔
      (x = 1 ∨ x = 2 ∨ x = 3 ∨ x = 4)) := by
  have law : ∀ (E : Type) [DecidableEq E] (A B : hashset E) (x : E),
      (operator_or A B).contains x = (A.contains x || B.contains x) := by
    intro E _ A B x
    rw [Bool.eq_iff_iff, Bool.or_eq_true, hashset.contains_iff_mem,
      hashset.contains_iff_mem, hashset.contains_iff_mem]
    exact mem_operator_or A B x
  refine ⟨law, by decide, ?_⟩
  intro x
  have h : (operator_or sample_A sample_B).elems = [1, 2, 3, 4] := by decide
  rw [hashset.contains_iff_mem, h]
  simp

/-- C2: `S.contains(e)` is true if and only if an element equal to `e` is stored in
`S`, which is the case exactly when the underlying count of `e` is positive; for an
element that is not present it is false. -/
theorem contains_iff_stored (S : hashset Elem) (e : Elem) :
    (S.contains e = true ↔ e ∈ S.elems) ∧
    (S.contains e = true ↔ 0 < S.count e) ∧
    (e ∉ S.elems → S.contains e = false) := by
  refine ⟨hashset.contains_iff_mem S e, ?_, ?_⟩
  · unfold hashset.contains hashset.count
    exact decide_eq_true_iff
  · intro h
    rw [← Bool.not_eq_true, hashset.contains_iff_mem]
    exact h

/-- C3: in the scenario with ids 10, 20 and 30 the member-pointer overload returns
true for the id 20, and for the id 99, which no element has, the loop ends and
control leaves the function without a return statement: no value is returned. -/
theorem exists_member_no_match_undefined :
    sample_pointers.exists_member sample_memory Obj.id 20 = Outcome.returned true ∧
    sample_pointers.exists_member sample_memory Obj.id 99 =
      Outcome.undefined Undefined.missing_return ∧
    sample_pointers.exists_member sample_memory Obj.id 99 ≠ Outcome.returned false := by
  decide

/-- C4: the method-pointer overload never returns true on a first match nor false
without one, because it cannot be instantiated: its loop condition `t->*method() == r`
applies the call to `method` itself and has no type, while the condition of the
member-pointer overload has type `bool`; the call `(t->*method)() == r` that the
comment describes has no type either, since `t` points to a const object and the
member function is not const. -/
theorem exists_method_ill_formed :
    (CExpr.call CExpr.method).type = none ∧
    method_condition.type = none ∧
    member_condition.type = some CType.boolean ∧
    method_condition_parenthesised.type = none := by
  decide

/-- C5: on a default-constructed set and on the set returned by any call of
`EMPTY()`, the member-pointer overload of `exists` leaves the function without
executing a return statement, for every member and expected value: no value, and so
no `false`, is returned. -/
theorem exists_on_empty_undefined (E T R : Type) [DecidableEq R]
    (get_pointer : E → Option T) (member : T → R) (r : R) (n : Nat) :
    (hashset.hashset_ctor : hashset E).exists_member get_pointer member r =
      Outcome.undefined Undefined.missing_return ∧
    (hashset.EMPTY (hashset.EMPTY_calls n : hashset.EMPTY_static E)).1.exists_member
      get_pointer member r = Outcome.undefined Undefined.missing_return ∧
    (hashset.hashset_ctor : hashset E).exists_member get_pointer member r ≠
      Outcome.returned false := by
  rw [hashset.EMPTY_fst n]
  refine ⟨rfl, rfl, ?_⟩
  intro h
  cases h

/-- C6, as stated, fails: on a set whose null element is visited before the matching
element, the member-pointer overload of `exists` does not give the explicit
invalid-element signal; it dereferences the null pointer. -/
theorem exists_null_not_signalled :
    sample_with_null.elems = [0, 2] ∧ sample_memory 0 = none ∧
    sample_with_null.exists_member sample_memory Obj.id 20 ≠ Outcome.invalid_element ∧
    sample_with_null.exists_member sample_memory Obj.id 20 =
      Outcome.undefined Undefined.null_dereference := by
  decide

/-- C6, amended: when the iteration of `S` visits a null element before any matching
element (every element visited earlier is non-null and does not match), the
member-pointer overload of `exists` dereferences the null pointer, with undefined
behaviour, and gives no explicit error. -/
theorem exists_null_dereference {E T R : Type} [DecidableEq R] (S : hashset E)
    (get_pointer : E → Option T) (member : T → R) (r : R)
    (pre : List E) (e : E) (post : List E)
    (hS : S.elems = pre ++ e :: post) (he : get_pointer e = none)
    (hpre : ∀ p ∈ pre, ∃ t, get_pointer p = some t ∧ member t ≠ r) :
    S.exists_member get_pointer member r = Outcome.undefined Undefined.null_dereference ∧
    S.exists_member get_pointer member r ≠ Outcome.invalid_element := by
  have h : S.exists_member get_pointer member r =
      Outcome.undefined Undefined.null_dereference := by
    unfold hashset.exists_member
    rw [hS]
    exact hashset.exists_member_loop_null get_pointer member r e post he pre hpre
  refine ⟨h, ?_⟩
  rw [h]
  intro hc
  cases hc

theorem exists_null_dereference_witness :
    (((hashset.hashset_ctor.insert 1).insert 0).insert 2).elems = [1] ++ 0 :: [2] ∧
    sample_memory 0 = none ∧
    (∀ p ∈ [1], ∃ t, sample_memory p = some t ∧ Obj.id t ≠ 20) ∧
    ((((hashset.hashset_ctor.insert 1).insert 0).insert 2).exists_member
        sample_memory Obj.id 20 = Outcome.undefined Undefined.null_dereference ∧
      (((hashset.hashset_ctor.insert 1).insert 0).insert 2).exists_member
        sample_memory Obj.id 20 ≠ Outcome.invalid_element) :=
  ⟨by decide, rfl, by decide,
    exists_null_dereference (((hashset.hashset_ctor.insert 1).insert 0).insert 2)
      sample_memory Obj.id 20 [1] 0 [2] (by decide) rfl (by decide)⟩

/-- C7: computing `A | B` on operands held in storage leaves both as they were. When
`left` holds `A` and `right` holds `B` (the two addresses may be the same), the call
returns; `result` is an address at which nothing was stored before; afterwards
`left` still holds `A` and `right` still holds `B`, every object other than `result`
is unchanged, and `result` holds `A | B`. -/
theorem union_leaves_operands (σ : Store Elem) (left right : Nat) (A B : hashset Elem)
    (hA : σ.read left = some A) (hB : σ.read right = some B) :
    ∃ σ' result, operator_or_at σ left right = some (σ', result) ∧
      σ.read result = none ∧
      σ'.read left = some A ∧ σ'.read right = some B ∧
      (∀ a, a ≠ result → σ'.read a = σ.read a) ∧
      σ'.read result = some (operator_or A B) := by
  have hl := Store.read_lt σ left A hA
  have hr := Store.read_lt σ right B hB
  have hfresh : (σ.allocate A).2 = σ.objects.length := rfl
  have hnl : left ≠ (σ.allocate A).2 := by rw [hfresh]; omega
  have hnr : right ≠ (σ.allocate A).2 := by rw [hfresh]; omega
  have hB1 : (σ.allocate A).1.read right = some B := by
    rw [Store.read_allocate_other σ A right hnr]; exact hB
  obtain ⟨σ', hrun, hres, hother⟩ := insert_range_at_spec (σ.allocate A).2 right B
    (Ne.symm hnr) B.size 0 (σ.allocate A).1 A hB1 (Store.read_allocate_new σ A)
    (by unfold hashset.size unordered_set.size; omega)
  have hkeep : ∀ a, a ≠ (σ.allocate A).2 → σ'.read a = σ.read a := by
    intro a ha
    rw [hother a ha, Store.read_allocate_other σ A a ha]
  refine ⟨σ', (σ.allocate A).2, ?_, ?_, ?_, ?_, hkeep, ?_⟩
  · unfold operator_or_at
    simp only [hA, hB, hrun]
  · unfold Store.read
    exact List.getElem?_eq_none (Nat.le_refl _)
  · rw [hkeep left hnl]; exact hA
  · rw [hkeep right hnr]; exact hB
  · rw [hres]
    rfl

theorem union_leaves_operands_witness :
    (Store.mk [sample_A, sample_B]).read 0 = some sample_A ∧
    (Store.mk [sample_A, sample_B]).read 1 = some sample_B ∧
    operator_or_at (Store.mk [sample_A, sample_B]) 0 1 =
      some (Store.mk [sample_A, sample_B, operator_or sample_A sample_B], 2) ∧
    (∃ σ' result, operator_or_at (Store.mk [sample_A, sample_B]) 0 1 = some (σ', result) ∧
      (Store.mk [sample_A, sample_B]).read result = none ∧
      σ'.read 0 = some sample_A ∧ σ'.read 1 = some sample_B ∧
      (∀ a, a ≠ result → σ'.read a = (Store.mk [sample_A, sample_B]).read a) ∧
      σ'.read result = some (operator_or sample_A sample_B)) :=
  ⟨rfl, rfl, by decide,
    union_leaves_operands (Store.mk [sample_A, sample_B]) 0 1 sample_A sample_B rfl rfl⟩

/-- C8: when `A` and `B` each hold no duplicate elements, every element of `A` or of
`B` is stored exactly once in `A | B`, and `A | B` holds no duplicate elements. -/
theorem union_preserves_unique (A B : hashset Elem) (hA : A.unique) (_hB : B.unique)
    (x : Elem) (hx : x ∈ A.elems ∨ x ∈ B.elems) :
    (operator_or A B).count x = 1 ∧ (operator_or A B).unique := by
  have hu : (operator_or A B).unique :=
    unordered_set.unique_insert_range B.elems A.tounordered_set hA
  refine ⟨?_, hu⟩
  exact List.count_eq_one_of_mem hu ((mem_operator_or A B x).mpr hx)

theorem union_preserves_unique_witness :
    sample_A.unique ∧ sample_B.unique ∧ (3 ∈ sample_A.elems ∨ 3 ∈ sample_B.elems) ∧
    ((operator_or sample_A sample_B).count 3 = 1 ∧
      (operator_or sample_A sample_B).unique) :=
  have hA : sample_A.unique := by unfold unordered_set.unique; decide
  have hB : sample_B.unique := by unfold unordered_set.unique; decide
  ⟨hA, hB, by decide, union_preserves_unique sample_A sample_B hA hB 3 (by decide)⟩

/-- C9: after any number of earlier calls, `EMPTY()` returns a set without elements,
`contains(x)` is false on it for every `x`, the next call returns the same contents,
and that next call leaves the contents of the shared instance as they were; a
default-constructed set has no elements either. -/
theorem EMPTY_is_empty (n : Nat) (x : Elem) :
    (hashset.EMPTY (hashset.EMPTY_calls n : hashset.EMPTY_static Elem)).1.elems = [] ∧
    (hashset.EMPTY (hashset.EMPTY_calls n : hashset.EMPTY_static Elem)).1.size = 0 ∧
    (hashset.EMPTY (hashset.EMPTY_calls n : hashset.EMPTY_static Elem)).1.contains x
      = false ∧
    (hashset.EMPTY (hashset.EMPTY_calls (n + 1) : hashset.EMPTY_static Elem)).1 =
      (hashset.EMPTY (hashset.EMPTY_calls n : hashset.EMPTY_static Elem)).1 ∧
    (hashset.EMPTY_calls (n + 2) : hashset.EMPTY_static Elem) =
      hashset.EMPTY_calls (n + 1) ∧
    (hashset.hashset_ctor : hashset Elem).elems = [] ∧
    (hashset.hashset_ctor : hashset Elem).contains x = false := by
  rw [hashset.EMPTY_fst n, hashset.EMPTY_fst (n + 1), hashset.EMPTY_calls_succ (n + 1),
    hashset.EMPTY_calls_succ n]
  exact ⟨rfl, rfl, rfl, rfl, rfl, rfl, rfl⟩

/-- C10: after `e` has been inserted into `S`, `S.contains(e)` is true; the empty
set does not contain 5, and after inserting 5 it does. -/
theorem contains_after_insert (S : hashset Elem) (e : Elem) :
    (S.insert e).contains e = true ∧
    (hashset.hashset_ctor : hashset Nat).contains 5 = false ∧
    ((hashset.hashset_ctor : hashset Nat).insert 5).contains 5 = true := by
  refine ⟨?_, by decide, by decide⟩
  rw [hashset.contains_iff_mem]
  exact (unordered_set.mem_insert S.tounordered_set e e).mpr (Or.inr rfl)

/-- C11: inserting `e` a second time changes nothing: the set after the second
insertion is the set after the first, with the same size and the same elements; and
after inserting 5 twice into the empty set the size is 1. -/
theorem insert_idempotent (S : hashset Elem) (e : Elem) :
    (S.insert e).insert e = S.insert e ∧
    ((S.insert e).insert e).size = (S.insert e).size ∧
    (∀ x, ((S.insert e).insert e).contains x = (S.insert e).contains x) ∧
    (((hashset.hashset_ctor : hashset Nat).insert 5).insert 5).size = 1 := by
  have h : (S.insert e).insert e = S.insert e := by
    unfold hashset.insert
    congr 1
    exact unordered_set.insert_stored _ e
      ((unordered_set.mem_insert S.tounordered_set e e).mpr (Or.inr rfl))
  refine ⟨h, by rw [h], fun x => by rw [h], by decide⟩

/-- C12, as stated, fails: the set holding a null pointer and a pointer to the object
with id 20 has a matching element, yet when the null pointer is visited first the
member-pointer overload of `exists` dereferences it instead of returning true, and
when the matching element is visited first it returns true: the two iteration orders
of the same elements give different results. -/
theorem exists_depends_on_order :
    sample_with_null.elems.Perm sample_with_null_reordered.elems ∧
    (∃ e ∈ sample_with_null.elems, ∃ t, sample_memory e = some t ∧ Obj.id t = 20) ∧
    sample_with_null.exists_member sample_memory Obj.id 20 ≠ Outcome.returned true ∧
    sample_with_null_reordered.exists_member sample_memory Obj.id 20 =
      Outcome.returned true ∧
    sample_with_null.exists_member sample_memory Obj.id 20 ≠
      sample_with_null_reordered.exists_member sample_memory Obj.id 20 := by
  refine ⟨by decide, ⟨2, by decide, ⟨20⟩, rfl, rfl⟩, by decide, by decide, by decide⟩

/-- C12, amended: when no element of `S` is null and at least one element has its
member equal to `r`, the member-pointer overload of `exists` returns true in every
iteration order: for a set `S'` that holds the elements of `S` in any other order
the result is true as well, so the two results are the same. -/
theorem exists_order_independent {E T R : Type} [DecidableEq R] (S S' : hashset E)
    (get_pointer : E → Option T) (member : T → R) (r : R)
    (horder : S.elems.Perm S'.elems)
    (hnonnull : ∀ e ∈ S.elems, get_pointer e ≠ none)
    (hmatch : ∃ e ∈ S.elems, ∃ t, get_pointer e = some t ∧ member t = r) :
    S.exists_member get_pointer member r = Outcome.returned true ∧
    S'.exists_member get_pointer member r = Outcome.returned true ∧
    S.exists_member get_pointer member r = S'.exists_member get_pointer member r := by
  have hnonnull' : ∀ e ∈ S'.elems, get_pointer e ≠ none :=
    fun e he => hnonnull e (horder.mem_iff.mpr he)
  have hmatch' : ∃ e ∈ S'.elems, ∃ t, get_pointer e = some t ∧ member t = r := by
    obtain ⟨e, he, t, ht⟩ := hmatch
    exact ⟨e, horder.mem_iff.mp he, t, ht⟩
  have h1 := hashset.exists_member_loop_match get_pointer member r S.elems hnonnull hmatch
  have h2 :=
    hashset.exists_member_loop_match get_pointer member r S'.elems hnonnull' hmatch'
  unfold hashset.exists_member
  exact ⟨h1, h2, h1.trans h2.symm⟩

theorem exists_order_independent_witness :
    sample_pointers.elems.Perm (((hashset.hashset_ctor.insert 3).insert 1).insert 2).elems ∧
    (∀ e ∈ sample_pointers.elems, sample_memory e ≠ none) ∧
    (∃ e ∈ sample_pointers.elems, ∃ t, sample_memory e = some t ∧ Obj.id t = 20) ∧
    sample_pointers.exists_member sample_memory Obj.id 20 = Outcome.returned true ∧
    (((hashset.hashset_ctor.insert 3).insert 1).insert 2).exists_member
      sample_memory Obj.id 20 = Outcome.returned true :=
  have hperm : sample_pointers.elems.Perm
      (((hashset.hashset_ctor.insert 3).insert 1).insert 2).elems := by decide
  have hnonnull : ∀ e ∈ sample_pointers.elems, sample_memory e ≠ none := by decide
  have hmatch : ∃ e ∈ sample_pointers.elems, ∃ t,
      sample_memory e = some t ∧ Obj.id t = 20 := ⟨2, by decide, ⟨20⟩, rfl, rfl⟩
  have h := exists_order_independent sample_pointers
    (((hashset.hashset_ctor.insert 3).insert 1).insert 2) sample_memory Obj.id 20
    hperm hnonnull hmatch
  ⟨hperm, hnonnull, hmatch, h.1, h.2.1⟩

/-- C13: for sets `A` and `B` (each holding no element twice), `A | B` and `B | A`
contain exactly the same elements and have the same size. -/
theorem union_commutative (A B : hashset Elem) (hA : A.unique) (hB : B.unique) :
    (∀ x, (operator_or A B).contains x = (operator_or B A).contains x) ∧
    (∀ x, x ∈ (operator_or A B).elems ↔ x ∈ (operator_or B A).elems) ∧
    (operator_or A B).size = (operator_or B A).size := by
  have hmem : ∀ x, x ∈ (operator_or A B).elems ↔ x ∈ (operator_or B A).elems := by
    intro x
    rw [mem_operator_or, mem_operator_or]
    exact Or.comm
  refine ⟨?_, hmem, ?_⟩
  · intro x
    rw [Bool.eq_iff_iff, hashset.contains_iff_mem, hashset.contains_iff_mem]
    exact hmem x
  · exact hashset.size_eq_of_same_elems _ _ (operator_or_unique A B hA)
      (operator_or_unique B A hB) hmem

theorem union_commutative_witness :
    sample_A.unique ∧ sample_B.unique ∧
    ((∀ x, (operator_or sample_A sample_B).contains x =
        (operator_or sample_B sample_A).contains x) ∧
      (∀ x, x ∈ (operator_or sample_A sample_B).elems ↔
        x ∈ (operator_or sample_B sample_A).elems) ∧
      (operator_or sample_A sample_B).size = (operator_or sample_B sample_A).size) :=
  have hA : sample_A.unique := by unfold unordered_set.unique; decide
  have hB : sample_B.unique := by unfold unordered_set.unique; decide
  ⟨hA, hB, union_commutative sample_A sample_B hA hB⟩

/-- C14: for a set `A` (holding no element twice) and the set returned by any call
of `EMPTY()`, both `A | EMPTY()` and `EMPTY() | A` contain exactly the elements of
`A` and have the size of `A`. -/
theorem union_EMPTY_identity (n : Nat) (A : hashset Elem) (hA : A.unique) :
    (∀ x, (operator_or A
      (hashset.EMPTY (hashset.EMPTY_calls n : hashset.EMPTY_static Elem)).1).contains x
        = A.contains x) ∧
    (operator_or A
      (hashset.EMPTY (hashset.EMPTY_calls n : hashset.EMPTY_static Elem)).1).size
        = A.size ∧
    (∀ x, (operator_or
      (hashset.EMPTY (hashset.EMPTY_calls n : hashset.EMPTY_static Elem)).1 A).contains x
        = A.contains x) ∧
    (operator_or
      (hashset.EMPTY (hashset.EMPTY_calls n : hashset.EMPTY_static Elem)).1 A).size
        = A.size := by
  rw [hashset.EMPTY_fst n]
  have hleft : operator_or A hashset.hashset_ctor = A := rfl
  have hE : (hashset.hashset_ctor : hashset Elem).unique := List.nodup_nil
  have hmem : ∀ x, x ∈ (operator_or hashset.hashset_ctor A).elems ↔ x ∈ A.elems := by
    intro x
    rw [mem_operator_or]
    constructor
    · rintro (h | h)
      · cases h
      · exact h
    · exact Or.inr
  refine ⟨fun x => by rw [hleft], by rw [hleft], ?_, ?_⟩
  · intro x
    rw [Bool.eq_iff_iff, hashset.contains_iff_mem, hashset.contains_iff_mem]
    exact hmem x
  · exact hashset.size_eq_of_same_elems _ _
      (operator_or_unique hashset.hashset_ctor A hE) hA hmem

theorem union_EMPTY_identity_witness :
    sample_A.unique ∧
    (operator_or sample_A (hashset.EMPTY (hashset.EMPTY_calls 0)).1).size = 3 ∧
    (operator_or (hashset.EMPTY (hashset.EMPTY_calls 0)).1 sample_A).size = 3 :=
  have hA : sample_A.unique := by unfold unordered_set.unique; decide
  have h := union_EMPTY_identity 0 sample_A hA
  ⟨hA, h.2.1, h.2.2.2⟩

end stout
